import Mathlib

/-!
# unit-circle: the circle tracer, the angle annotator and the driver loop

A shallow embedding of `src/main.cpp`.  A C++ `int` is a 32-bit two's complement
integer: it is modelled as an `Int`, and every arithmetic operation of the source is
followed by `wrapInt`, which reduces the result modulo `2 ^ 32` into the range of `int`,
as the compiled code does.  The circle tracer is embedded a second time over unbounded
integers (`traceInit`, `stepY`, `stepX`, `traceBody`, `traceLoop`, `traceCircle`), for the
two properties that are stated over unbounded integers, and the two embeddings are shown
to agree when no operation overflows.  The calls that draw, present, pause and render
text are recorded, in program order, as a list of `Call` values; resource management
(`SDL_DestroyTexture`, `SDL_FreeSurface`) and `printf` diagnostics are not recorded.
-/

namespace UnitCircle

/-- One call made to the SDL collaborators, in the order the program issues it. -/
inductive Call where
  /-- The call `SDL_RenderDrawPoint(gRenderer, x, y)`. -/
  | drawPoint (x y : Int)
  /-- The call `SDL_RenderDrawLine(gRenderer, x1, y1, x2, y2)`. -/
  | drawLine (x1 y1 x2 y2 : Int)
  /-- The call `SDL_RenderPresent(gRenderer)`. -/
  | present
  /-- The call `SDL_Delay(ms)`. -/
  | delay (ms : Nat)
  /-- The render-text call `TTF_RenderText_Solid(gFont, text, color)`. -/
  | renderText (text : String)
  /-- The draw-image call `SDL_RenderCopy(gRenderer, cTexture, NULL, &renderQuad)` with
  `renderQuad = (x, y, w, h)`;
  `tex` is `false` when the texture handle passed is `NULL` -/
  | renderCopy (tex : Bool) (x y w h : Int)
  deriving DecidableEq, Repr

/-- The value a 32-bit `int` holds after an arithmetic operation whose exact result is
`n`: the representative of `n` modulo `2 ^ 32` in the range `-2 ^ 31 .. 2 ^ 31 - 1`. -/
def wrapInt (n : Int) : Int :=
  (n + 2147483648) % 4294967296 - 2147483648

/-! ## Circle tracer (`traceCircle`, lines 301-337), over unbounded integers -/

/-- The local variables of `traceCircle`. -/
structure TraceState where
  x : Int
  y : Int
  dx : Int
  dy : Int
  err : Int
  deriving DecidableEq, Repr

/-- The initialisation of `traceCircle` (lines 303-307) over unbounded integers;
`radius << 1` is `2 * radius`. -/
def traceInit (radius : Int) : TraceState :=
  { x := radius - 1, y := 0, dx := 1, dy := 1, err := 1 - radius * 2 }

/-- The first `if` of the loop body (lines 320-325) over unbounded integers. -/
def stepY (s : TraceState) : TraceState :=
  if s.err ≤ 0 then { s with y := s.y + 1, err := s.err + s.dy, dy := s.dy + 2 } else s

/-- The second `if` of the loop body (lines 327-332) over unbounded integers;
`-radius << 1` is `-radius * 2`. -/
def stepX (radius : Int) (s : TraceState) : TraceState :=
  if s.err > 0 then
    { s with x := s.x - 1, dx := s.dx + 2, err := s.err + ((-radius) * 2 + (s.dx + 2)) }
  else s

/-- The state update of one pass through the loop body (lines 320-332) over unbounded
integers. -/
def traceBody (radius : Int) (s : TraceState) : TraceState :=
  stepX radius (stepY s)

/-- The eight `SDL_RenderDrawPoint` calls of one pass (lines 311-318) over unbounded
integers. -/
def octantPoints (x0 y0 : Int) (s : TraceState) : List Call :=
  [ Call.drawPoint (x0 + s.x) (y0 - s.y),
    Call.drawPoint (x0 - s.x) (y0 - s.y),
    Call.drawPoint (x0 + s.x) (y0 + s.y),
    Call.drawPoint (x0 - s.x) (y0 + s.y),
    Call.drawPoint (x0 + s.y) (y0 - s.x),
    Call.drawPoint (x0 - s.y) (y0 - s.x),
    Call.drawPoint (x0 + s.y) (y0 + s.x),
    Call.drawPoint (x0 - s.y) (y0 + s.x) ]

/-- All calls of one pass through the loop body: the eight points, then
`SDL_RenderPresent` and `SDL_Delay(25)` (lines 311-335). -/
def passCalls (x0 y0 : Int) (s : TraceState) : List Call :=
  octantPoints x0 y0 s ++ [Call.present, Call.delay 25]

/-- The `while (x >= y)` loop of `traceCircle` (lines 309-336) over unbounded integers, as
the list of calls it issues from loop state `s`. -/
def traceLoop (x0 y0 radius : Int) (s : TraceState) : List Call :=
  if s.x ≥ s.y then
    passCalls x0 y0 s ++ traceLoop x0 y0 radius (traceBody radius s)
  else []
termination_by (s.x - s.y + 1).toNat
decreasing_by
  simp only [traceBody, stepX, stepY]
  split_ifs <;> simp <;> omega

/-- The function `traceCircle(x0, y0, radius)` (lines 301-337) over unbounded integers:
the calls it issues, in order. -/
def traceCircle (x0 y0 radius : Int) : List Call :=
  traceLoop x0 y0 radius (traceInit radius)

/-- One step of the `while` loop on the loop state: a pass through the body when the
guard `x >= y` holds, and no change once the loop has exited. -/
def traceStep (radius : Int) (s : TraceState) : TraceState :=
  if s.x ≥ s.y then traceBody radius s else s

/-- The loop state after `n` steps of the `while` loop, starting from the initialisation. -/
def traceStateAt (radius : Int) (n : Nat) : TraceState :=
  (traceStep radius)^[n] (traceInit radius)

/-- The loop invariant relating the decision variable to the squared distance. -/
def TraceInv (r : Int) (s : TraceState) : Prop :=
  s.dy = 2 * s.y + 1 ∧ s.dx = 2 * (r - s.x) - 1 ∧ s.err = s.x ^ 2 + s.y ^ 2 - r ^ 2

/-- The facts about the loop state, for a radius `r ≥ 1`, from which the distance bound
on the emitted points follows: `x` never exceeds `r - 1`, `y` is never negative, the
decision variable is at least `-2x - 1`, and it is not positive while the guard holds. -/
def HeadInv (r : Int) (s : TraceState) : Prop :=
  TraceInv r s ∧ s.x ≤ r - 1 ∧ 0 ≤ s.y ∧ -2 * s.x - 1 ≤ s.err ∧ (s.y ≤ s.x → s.err ≤ 0)

/-- The integer nearest to the square root of `d2`, computed with the integer square
root: with `s = ⌊√d2⌋`, it is `s` when `d2 ≤ s² + s` and `s + 1` otherwise. -/
def nearestSqrt (d2 : Int) : Int :=
  let s : Int := (Nat.sqrt d2.toNat : Nat)
  if d2 - s * s ≤ s then s else s + 1

/-- The points passed to `SDL_RenderDrawPoint` in a list of calls, in order. -/
def drawnPoints : List Call → List (Int × Int)
  | [] => []
  | Call.drawPoint x y :: cs => (x, y) :: drawnPoints cs
  | _ :: cs => drawnPoints cs

/-- The number of `SDL_RenderPresent` calls in a list of calls; `traceCircle` issues one
per loop iteration. -/
def presentCount : List Call → Nat
  | [] => 0
  | Call.present :: cs => presentCount cs + 1
  | _ :: cs => presentCount cs

/-! ## Circle tracer (`traceCircle`, lines 301-337), over 32-bit `int` -/

/-- The initialisation of `traceCircle` (lines 303-307) in 32-bit arithmetic. -/
def traceInit32 (radius : Int) : TraceState :=
  { x := wrapInt (radius - 1), y := 0, dx := 1, dy := 1,
    err := wrapInt (1 - wrapInt (radius * 2)) }

/-- The first `if` of the loop body (lines 320-325) in 32-bit arithmetic. -/
def stepY32 (s : TraceState) : TraceState :=
  if s.err ≤ 0 then
    { s with y := wrapInt (s.y + 1), err := wrapInt (s.err + s.dy), dy := wrapInt (s.dy + 2) }
  else s

/-- The second `if` of the loop body (lines 327-332) in 32-bit arithmetic: `x--`,
`dx += 2`, then `err += (-radius << 1) + dx` with the new `dx`. -/
def stepX32 (radius : Int) (s : TraceState) : TraceState :=
  if s.err > 0 then
    { s with
      x := wrapInt (s.x - 1)
      dx := wrapInt (s.dx + 2)
      err := wrapInt (s.err + wrapInt (wrapInt (wrapInt (-radius) * 2) + wrapInt (s.dx + 2))) }
  else s

/-- The state update of one pass through the loop body (lines 320-332) in 32-bit
arithmetic. -/
def traceBody32 (radius : Int) (s : TraceState) : TraceState :=
  stepX32 radius (stepY32 s)

/-- The eight `SDL_RenderDrawPoint` calls of one pass (lines 311-318) in 32-bit
arithmetic. -/
def octantPoints32 (x0 y0 : Int) (s : TraceState) : List Call :=
  [ Call.drawPoint (wrapInt (x0 + s.x)) (wrapInt (y0 - s.y)),
    Call.drawPoint (wrapInt (x0 - s.x)) (wrapInt (y0 - s.y)),
    Call.drawPoint (wrapInt (x0 + s.x)) (wrapInt (y0 + s.y)),
    Call.drawPoint (wrapInt (x0 - s.x)) (wrapInt (y0 + s.y)),
    Call.drawPoint (wrapInt (x0 + s.y)) (wrapInt (y0 - s.x)),
    Call.drawPoint (wrapInt (x0 - s.y)) (wrapInt (y0 - s.x)),
    Call.drawPoint (wrapInt (x0 + s.y)) (wrapInt (y0 + s.x)),
    Call.drawPoint (wrapInt (x0 - s.y)) (wrapInt (y0 + s.x)) ]

/-- All calls of one pass through the loop body in 32-bit arithmetic: the eight points,
then `SDL_RenderPresent` and `SDL_Delay(25)` (lines 311-335). -/
def passCalls32 (x0 y0 : Int) (s : TraceState) : List Call :=
  octantPoints32 x0 y0 s ++ [Call.present, Call.delay 25]

/-- The calls issued by the first `passes` passes of the `while (x >= y)` loop (lines
309-336) from loop state `s` in 32-bit arithmetic; all the calls of the loop, when it
leaves within `passes` passes. -/
def tracePasses32 (x0 y0 radius : Int) : Nat → TraceState → List Call
  | 0, _ => []
  | passes + 1, s =>
    if s.x ≥ s.y then
      passCalls32 x0 y0 s ++ tracePasses32 x0 y0 radius passes (traceBody32 radius s)
    else []

/-- The calls that `traceCircle(x0, y0, radius)` issues in its first `passes` passes
through the loop, in 32-bit arithmetic.  A call is issued by `traceCircle` when it is in
this list for some number of passes. -/
def traceCircle32 (passes : Nat) (x0 y0 radius : Int) : List Call :=
  tracePasses32 x0 y0 radius passes (traceInit32 radius)

/-! ## Text texture (`Texture`, lines 21-53 and 128-189) -/

/-- The fields of `class Texture`; `cTexture` is `true` when the handle is not `NULL`. -/
structure Texture where
  cTexture : Bool
  cWidth : Int
  cHeight : Int
  deriving DecidableEq, Repr

/-- The constructor `Texture::Texture()` (lines 77-83). -/
def Texture.init : Texture :=
  { cTexture := false, cWidth := 0, cHeight := 0 }

/-- What the two SDL calls of `loadFromRenderedText` return for a text. -/
inductive RenderOutcome where
  /-- The call of `TTF_RenderText_Solid` returned `NULL`. -/
  | surfaceFailed
  /-- a surface of size `w`×`h` was made, `SDL_CreateTextureFromSurface` returned `NULL` -/
  | textureFailed (w h : Int)
  /-- a texture was made from a surface of size `w`×`h` -/
  | rendered (w h : Int)
  deriving DecidableEq, Repr

/-- Whether the outcome leaves no texture. -/
def RenderOutcome.failed : RenderOutcome → Bool
  | RenderOutcome.rendered _ _ => false
  | _ => true

/-- A finite value of type `double`, held exactly as `mant / 2 ^ shift`; every finite
IEEE double is of this form. -/
structure Double where
  mant : Int
  shift : Nat
  deriving DecidableEq, Repr

/-- The double with the value of an integer, as in the literals `0.0`, `30.0`, ... -/
def Double.ofInt (n : Int) : Double :=
  { mant := n, shift := 0 }

/-- The conversion `int switchBuff = input`: truncation toward zero. -/
def Double.toInt (d : Double) : Int :=
  Int.tdiv d.mant (2 ^ d.shift)

/-- The value of the double is the integer `n`. -/
def Double.IsInt (d : Double) (n : Int) : Prop :=
  d.mant = n * 2 ^ d.shift

instance (d : Double) (n : Int) : Decidable (d.IsInt n) :=
  inferInstanceAs (Decidable (d.mant = n * 2 ^ d.shift))

/-- What the program takes from outside: the floating-point trigonometry of lines
346-347 and the text renderer. -/
structure Env where
  /-- The value `(int)(cos(input * pi / 180.0) * radius)` assigned to `r_x`. -/
  cosTimes : Double → Int → Int
  /-- The value `(int)(sin(input * pi / 180.0) * radius)` assigned to `r_y`. -/
  sinTimes : Double → Int → Int
  /-- what `TTF_RenderText_Solid` and `SDL_CreateTextureFromSurface` return for a text -/
  renderText : String → RenderOutcome

/-- The method `Texture::free` (lines 162-172). -/
def Texture.free (t : Texture) : Texture :=
  if t.cTexture then { cTexture := false, cWidth := 0, cHeight := 0 } else t

/-- The method `Texture::loadFromRenderedText` (lines 128-160): the calls issued, the texture
afterwards, and the returned `cTexture != NULL`. -/
def Texture.loadFromRenderedText (env : Env) (textureText : String) (t : Texture) :
    List Call × Texture × Bool :=
  let t1 := t.free
  let t2 : Texture :=
    match env.renderText textureText with
    | RenderOutcome.surfaceFailed => t1
    | RenderOutcome.textureFailed _ _ => { t1 with cTexture := false }
    | RenderOutcome.rendered w h => { cTexture := true, cWidth := w, cHeight := h }
  ([Call.renderText textureText], t2, t2.cTexture)

/-- The method `Texture::render` (lines 174-179). -/
def Texture.render (t : Texture) (x y : Int) : List Call :=
  [Call.renderCopy t.cTexture x y t.cWidth t.cHeight]

/-! ## Angle annotator (`drawAngle`, lines 339-468) -/

/-- The `case` labels of the switch in `drawAngle`: for each, the label text and the
position passed to `gTextBuffer.render`, as a function of the line endpoint
`(ex, ey) = (xs + r_x, ys - r_y)` and of `getWidth()` and `getHeight()`, in 32-bit
arithmetic.  Integer division is C++ division, which truncates. -/
def switchCase (switchBuff : Int) : Option (String × (Int → Int → Int → Int → Int × Int)) :=
  match switchBuff with
  | 0 => some ("0pi (1, 0)", fun ex ey _ h => (wrapInt (ex + 5), wrapInt (ey - h)))
  | 30 =>
    some ("1/6pi (sqrt(3)/2, 1/2)",
      fun ex ey _ h => (wrapInt (ex + 7), wrapInt (ey - Int.tdiv h 3)))
  | 45 =>
    some ("1/4pi (sqrt(2)/2, sqrt(2)/2)",
      fun ex ey _ h => (wrapInt (ex + 5), wrapInt (ey - Int.tdiv h 2)))
  | 60 => some ("1/3pi (1/2, sqrt(3)/2)", fun ex ey _ h => (wrapInt (ex + 3), wrapInt (ey - h)))
  | 90 =>
    some ("1/2pi (0, 1)", fun ex ey w h => (wrapInt (ex - Int.tdiv w 2), wrapInt (ey - h)))
  | 120 =>
    some ("2/3pi (-1/2, sqrt(3)/2)",
      fun ex ey w h => (wrapInt (wrapInt (ex - 3) - w), wrapInt (ey - h)))
  | 135 =>
    some ("3/4pi (-sqrt(2)/2, sqrt(2)/2)",
      fun ex ey w h => (wrapInt (wrapInt (ex - 5) - w), wrapInt (ey - Int.tdiv h 2)))
  | 150 =>
    some ("5/6pi (-sqrt(3)/2, 1/2)",
      fun ex ey w h => (wrapInt (wrapInt (ex - 7) - w), wrapInt (ey - Int.tdiv h 3)))
  | 180 =>
    some ("1pi (-1, 0)",
      fun ex ey w h => (wrapInt (wrapInt (ex - w) - 5), wrapInt (ey - Int.tdiv h 2)))
  | 210 => some ("7/6pi (-sqrt(3)/2, -1/2)", fun ex ey w _ => (wrapInt (ex - w), ey))
  | 225 => some ("5/4pi (-sqrt(2)/2, -sqrt(2)/2)", fun ex ey w _ => (wrapInt (ex - w), ey))
  | 240 => some ("4/3pi (-1/2, -sqrt(3)/2)", fun ex ey w _ => (wrapInt (ex - w), ey))
  | 270 =>
    some ("3/2pi (0, -1)",
      fun ex ey w h => (wrapInt (ex - Int.tdiv w 2), wrapInt (ey + Int.tdiv h 2)))
  | 300 => some ("5/3pi (1/2, -sqrt(3)/2)", fun ex ey _ _ => (ex, ey))
  | 315 => some ("7/4pi (sqrt(2)/2, -sqrt(2)/2)", fun ex ey _ _ => (ex, ey))
  | 330 => some ("11/6pi (sqrt(3)/2, -1/2)", fun ex ey _ _ => (ex, ey))
  | 360 =>
    some ("2pi (1, 0)", fun ex ey _ h => (wrapInt (ex + 7), wrapInt (ey + Int.tdiv h 2)))
  | _ => none

/-- The label text that the switch renders for the value `switchBuff`, if any. -/
def labelText (switchBuff : Int) : Option String :=
  (switchCase switchBuff).map Prod.fst

/-- The function `drawAngle(xs, ys, input, radius)` (lines 339-468): the calls it issues and
`gTextBuffer` afterwards.  The endpoint `(xs + r_x, ys - r_y)` is computed in 32-bit
arithmetic. -/
def drawAngle (env : Env) (xs ys : Int) (input : Double) (radius : Int) (t : Texture) :
    List Call × Texture :=
  let r_x := env.cosTimes input radius
  let r_y := env.sinTimes input radius
  let ex := wrapInt (xs + r_x)
  let ey := wrapInt (ys - r_y)
  let line := [Call.drawLine xs ys ex ey, Call.present, Call.delay 50]
  let switchBuff := input.toInt
  match switchCase switchBuff with
  | some (text, pos) =>
    let loaded := Texture.loadFromRenderedText env text t
    let t1 := loaded.2.1
    let p := pos ex ey t1.cWidth t1.cHeight
    (line ++ loaded.1 ++ t1.render p.1 p.2 ++ [Call.present] ++ [Call.delay 50], t1)
  | none => (line ++ [Call.delay 50], t)

/-- The rectangles `(x, y, w, h)` of the draw-image calls in a list of calls, in order. -/
def labelRects : List Call → List (Int × Int × Int × Int)
  | [] => []
  | Call.renderCopy _ x y w h :: cs => (x, y, w, h) :: labelRects cs
  | _ :: cs => labelRects cs

/-- The texts of the render-text calls in a list of calls, in order. -/
def renderedTexts : List Call → List String
  | [] => []
  | Call.renderText text :: cs => text :: renderedTexts cs
  | _ :: cs => renderedTexts cs

/-- The seventeen canonical degree values, as the specification lists them. -/
def canonicalDegrees : List Int :=
  [0, 30, 45, 60, 90, 120, 135, 150, 180, 210, 225, 240, 270, 300, 315, 330, 360]

/-! ## Angle sequencer (`popularLines`, lines 470-493) -/

/-- The arguments of one call of `drawAngle`. -/
structure AngleCall where
  xs : Int
  ys : Int
  input : Double
  radius : Int
  deriving DecidableEq, Repr

/-- Runs a list of `drawAngle` calls one after the other on the shared `gTextBuffer`: the
calls issued, in order, and `gTextBuffer` afterwards. -/
def runAngleCalls (env : Env) : List AngleCall → Texture → List Call × Texture
  | [], t => ([], t)
  | c :: cs, t =>
    let first := drawAngle env c.xs c.ys c.input c.radius t
    let others := runAngleCalls env cs first.2
    (first.1 ++ others.1, others.2)

/-- The function `popularLines(x0, y0, radi)` (lines 470-493): the seventeen statements of
its body, each a call of `drawAngle` on the `gTextBuffer` the one before left; the calls
issued, in order, and `gTextBuffer` afterwards. -/
def popularLines (env : Env) (x0 y0 radi : Int) (t : Texture) : List Call × Texture :=
  let a0 := drawAngle env x0 y0 (Double.ofInt 0) radi t
  let a1 := drawAngle env x0 y0 (Double.ofInt 30) radi a0.2
  let a2 := drawAngle env x0 y0 (Double.ofInt 45) radi a1.2
  let a3 := drawAngle env x0 y0 (Double.ofInt 60) radi a2.2
  let a4 := drawAngle env x0 y0 (Double.ofInt 90) radi a3.2
  let a5 := drawAngle env x0 y0 (Double.ofInt 120) radi a4.2
  let a6 := drawAngle env x0 y0 (Double.ofInt 135) radi a5.2
  let a7 := drawAngle env x0 y0 (Double.ofInt 150) radi a6.2
  let a8 := drawAngle env x0 y0 (Double.ofInt 180) radi a7.2
  let a9 := drawAngle env x0 y0 (Double.ofInt 210) radi a8.2
  let a10 := drawAngle env x0 y0 (Double.ofInt 225) radi a9.2
  let a11 := drawAngle env x0 y0 (Double.ofInt 240) radi a10.2
  let a12 := drawAngle env x0 y0 (Double.ofInt 270) radi a11.2
  let a13 := drawAngle env x0 y0 (Double.ofInt 300) radi a12.2
  let a14 := drawAngle env x0 y0 (Double.ofInt 315) radi a13.2
  let a15 := drawAngle env x0 y0 (Double.ofInt 330) radi a14.2
  let a16 := drawAngle env x0 y0 (Double.ofInt 360) radi a15.2
  (a0.1 ++ a1.1 ++ a2.1 ++ a3.1 ++ a4.1 ++ a5.1 ++ a6.1 ++ a7.1 ++ a8.1 ++ a9.1 ++ a10.1
      ++ a11.1 ++ a12.1 ++ a13.1 ++ a14.1 ++ a15.1 ++ a16.1,
    a16.2)

/-- The line segments passed to `SDL_RenderDrawLine` in a list of calls, in order. -/
def drawnLines : List Call → List (Int × Int × Int × Int)
  | [] => []
  | Call.drawLine x1 y1 x2 y2 :: cs => (x1, y1, x2, y2) :: drawnLines cs
  | _ :: cs => drawnLines cs

/-! ## Driver loop (`main`, lines 495-569) -/

def SCREEN_WIDTH : Int := 800

def SCREEN_HEIGHT : Int := 800

def OriginX : Int := Int.tdiv SCREEN_WIDTH 2

def OriginY : Int := Int.tdiv SCREEN_HEIGHT 2

def rad : Int := 200

/-- The globals `drawn` and `lined` (lines 495-496). -/
structure RunState where
  drawn : Int
  lined : Int
  deriving DecidableEq, Repr

/-- The run state at program start: `drawn = 0`, `lined = 0`. -/
def RunState.init : RunState :=
  { drawn := 0, lined := 0 }

/-- What one pass of the main loop invokes, at the level of the driver. -/
inductive DriverCall where
  /-- The call of `SDL_RenderClear` on a white background (lines 546-547). -/
  | clear
  /-- An invocation `traceCircle(x0, y0, radius)` (line 555). -/
  | traceCircle (x0 y0 radius : Int)
  /-- An invocation `popularLines(x0, y0, radi)` (line 562). -/
  | popularLines (x0 y0 radi : Int)
  /-- The call of `SDL_RenderPresent` at the end of the pass (line 568). -/
  | present
  deriving DecidableEq, Repr

/-- One pass through the body of `while (!quit)` after the event polling (lines 543-568):
the invocations it makes and the run state afterwards. -/
def mainPass (s : RunState) : List DriverCall × RunState :=
  let c1 : List DriverCall := if s.drawn = 0 then [DriverCall.clear] else []
  let r2 : List DriverCall × RunState :=
    if s.drawn = 0 then
      ([DriverCall.traceCircle OriginX OriginY rad], { s with drawn := 1 })
    else ([], s)
  let r3 : List DriverCall × RunState :=
    if r2.2.drawn = 1 ∨ r2.2.lined = 0 then
      ([DriverCall.popularLines OriginX OriginY rad], { r2.2 with lined := 1 })
    else ([], r2.2)
  (c1 ++ r2.1 ++ r3.1 ++ [DriverCall.present], r3.2)

/-- The main loop run for `n` passes from run state `s`: the invocations of each pass, in
order, and the final run state.  The number of passes is decided by when the quit event
arrives; the body runs at least once, since `quit` is only tested at the loop head. -/
def mainLoop : Nat → RunState → List (List DriverCall) × RunState
  | 0, s => ([], s)
  | n + 1, s =>
    let first := mainPass s
    let others := mainLoop n first.2
    (first.1 :: others.1, others.2)

/-- Whether an invocation is one of `popularLines`. -/
def DriverCall.isPopularLines : DriverCall → Bool
  | DriverCall.popularLines _ _ _ => true
  | _ => false

/-- Whether an invocation is one of `traceCircle`. -/
def DriverCall.isTraceCircle : DriverCall → Bool
  | DriverCall.traceCircle _ _ _ => true
  | _ => false

/-! ## Concrete inputs for the examples -/

/-- An environment in which lines 346-347 give `r_x = rx` and `r_y = ry` and every text
has the render outcome `out`. -/
def envConst (rx ry : Int) (out : RenderOutcome) : Env :=
  { cosTimes := fun _ _ => rx
    sinTimes := fun _ _ => ry
    renderText := fun _ => out }

/-- The environment of angle 0 at radius 200 (`r_x = 200`, `r_y = 0`) with a font that
renders every label to a 70×14 image. -/
def envZero : Env :=
  envConst 200 0 (RenderOutcome.rendered 70 14)

/-- The environment of the angle 30.5 at radius 200: `cos(30.5°) * 200 = 172.3...`
truncates to `r_x = 172` and `sin(30.5°) * 200 = 101.5...` to `r_y = 101`; every label
renders to a 154×14 image. -/
def envHalf : Env :=
  envConst 172 101 (RenderOutcome.rendered 154 14)

/-- The environment of angle 31 at radius 200: `cos(31°) * 200 = 171.4...` truncates to
`r_x = 171` and `sin(31°) * 200 = 103.0...` to `r_y = 103`; every label renders to a 70×14
image. -/
def envThirtyOne : Env :=
  envConst 171 103 (RenderOutcome.rendered 70 14)

/-- The environment of angle 0 at radius 200 in which no text can be rendered
(`TTF_RenderText_Solid` returns `NULL`, as when the font is unavailable). -/
def envNoFont : Env :=
  envConst 200 0 RenderOutcome.surfaceFailed

/-- The environment of angle 0 at radius 200 (`r_x = 200`, `r_y = 0`) whose renderer fails
on the text of the label of angle 0 and renders every other text to a 70×14 image. -/
def envZeroFails : Env :=
  { cosTimes := fun _ _ => 200
    sinTimes := fun _ _ => 0
    renderText := fun text =>
      if text = "0pi (1, 0)" then RenderOutcome.surfaceFailed
      else RenderOutcome.rendered 70 14 }

/-- The environment of angle 0 at radius 200 with a monospaced font: a label of `n`
characters renders to an image of `7 * n` by 14 pixels, so that labels differ in width. -/
def envMono : Env :=
  { cosTimes := fun _ _ => 200
    sinTimes := fun _ _ => 0
    renderText := fun text => RenderOutcome.rendered (7 * (text.length : Int)) 14 }

/-- The double 30.5, as `61 / 2 ^ 1`. -/
def thirtyAndHalf : Double :=
  { mant := 61, shift := 1 }

/-! ## Theorems: circle tracer -/

theorem traceBody_decreases (radius : Int) (s : TraceState) :
    (traceBody radius s).x - (traceBody radius s).y < s.x - s.y := by
  unfold traceBody stepX stepY
  split_ifs <;> simp <;> omega

theorem traceBody_moves (radius : Int) (s : TraceState) :
    (traceBody radius s).y = s.y + 1 ∨ (traceBody radius s).x = s.x - 1 := by
  unfold traceBody stepX stepY
  split_ifs <;> simp
  omega

theorem traceLoop_of_guard (x0 y0 r : Int) (s : TraceState) (h : s.y ≤ s.x) :
    traceLoop x0 y0 r s = passCalls x0 y0 s ++ traceLoop x0 y0 r (traceBody r s) := by
  rw [traceLoop]
  simp [h]

theorem traceLoop_of_exit (x0 y0 r : Int) (s : TraceState) (h : s.x < s.y) :
    traceLoop x0 y0 r s = [] := by
  rw [traceLoop]
  simp [h]

theorem traceStep_of_guard (r : Int) (s : TraceState) (h : s.y ≤ s.x) :
    traceStep r s = traceBody r s := by
  simp [traceStep, h]

/-- Unrolling of the loop: from any state, the loop makes some number `n` of passes, no
more than the measure `x - y + 1` allows, and then leaves. -/
theorem traceLoop_unroll (x0 y0 r : Int) :
    ∀ (m : Nat) (s : TraceState), (s.x - s.y + 1).toNat ≤ m →
      ∃ n, n ≤ m ∧
        traceLoop x0 y0 r s
          = (List.range n).flatMap (fun k => passCalls x0 y0 ((traceStep r)^[k] s)) ∧
        (∀ k, k < n → ((traceStep r)^[k] s).y ≤ ((traceStep r)^[k] s).x) ∧
        ((traceStep r)^[n] s).x < ((traceStep r)^[n] s).y := by
  intro m
  induction m with
  | zero =>
    intro s hs
    have hx : s.x < s.y := by omega
    exact ⟨0, le_refl _, by simp [traceLoop_of_exit _ _ _ _ hx], by simp, by simpa using hx⟩
  | succ m ih =>
    intro s hs
    by_cases hg : s.y ≤ s.x
    · have hdec := traceBody_decreases r s
      obtain ⟨n, hn, htr, hgd, hex⟩ := ih (traceBody r s) (by omega)
      refine ⟨n + 1, by omega, ?_, ?_, ?_⟩
      · rw [traceLoop_of_guard _ _ _ _ hg, htr, List.range_succ_eq_map, List.flatMap_cons,
          List.flatMap_map]
        simp [Function.iterate_succ_apply, traceStep_of_guard _ _ hg]
      · intro k hk
        cases k with
        | zero => simpa using hg
        | succ k =>
          have := hgd k (by omega)
          simpa [Function.iterate_succ_apply, traceStep_of_guard _ _ hg] using this
      · simpa [Function.iterate_succ_apply, traceStep_of_guard _ _ hg] using hex
    · have hx : s.x < s.y := by omega
      exact ⟨0, by omega, by simp [traceLoop_of_exit _ _ _ _ hx], by simp, by simpa using hx⟩

theorem traceInv_init (r : Int) : TraceInv r (traceInit r) := by
  refine ⟨by simp [traceInit], by simp [traceInit], ?_⟩
  simp only [traceInit]
  ring

theorem traceInv_stepY (r : Int) (s : TraceState) (h : TraceInv r s) : TraceInv r (stepY s) := by
  obtain ⟨hdy, hdx, herr⟩ := h
  unfold stepY
  split_ifs
  · refine ⟨?_, hdx, ?_⟩
    · show s.dy + 2 = 2 * (s.y + 1) + 1
      omega
    · show s.err + s.dy = s.x ^ 2 + (s.y + 1) ^ 2 - r ^ 2
      linear_combination herr + hdy
  · exact ⟨hdy, hdx, herr⟩

theorem traceInv_stepX (r : Int) (s : TraceState) (h : TraceInv r s) :
    TraceInv r (stepX r s) := by
  obtain ⟨hdy, hdx, herr⟩ := h
  unfold stepX
  split_ifs
  · refine ⟨hdy, ?_, ?_⟩
    · show s.dx + 2 = 2 * (r - (s.x - 1)) - 1
      omega
    · show s.err + ((-r) * 2 + (s.dx + 2)) = (s.x - 1) ^ 2 + s.y ^ 2 - r ^ 2
      linear_combination herr + hdx
  · exact ⟨hdy, hdx, herr⟩

theorem traceInv_body (r : Int) (s : TraceState) (h : TraceInv r s) :
    TraceInv r (traceBody r s) :=
  traceInv_stepX r _ (traceInv_stepY r s h)

theorem traceInv_step (r : Int) (s : TraceState) (h : TraceInv r s) :
    TraceInv r (traceStep r s) := by
  unfold traceStep
  split_ifs
  · exact traceInv_body r s h
  · exact h

theorem traceInv_iterate (r : Int) (n : Nat) : TraceInv r ((traceStep r)^[n] (traceInit r)) := by
  induction n with
  | zero => exact traceInv_init r
  | succ n ih =>
    rw [Function.iterate_succ_apply']
    exact traceInv_step r _ ih

theorem headInv_init (r : Int) (hr : 1 ≤ r) : HeadInv r (traceInit r) := by
  refine ⟨traceInv_init r, ?_, ?_, ?_, ?_⟩ <;> simp [traceInit] <;> omega

theorem headInv_body (r : Int) (s : TraceState) (h : HeadInv r s) (hg : s.y ≤ s.x) :
    HeadInv r (traceBody r s) := by
  obtain ⟨hinv, hx, hy, hlo, hhi⟩ := h
  refine ⟨traceInv_body r s hinv, ?_⟩
  obtain ⟨hdy, hdx, -⟩ := hinv
  have herr := hhi hg
  have hY : stepY s = { s with y := s.y + 1, err := s.err + s.dy, dy := s.dy + 2 } := by
    simp [stepY, herr]
  rw [traceBody, hY]
  by_cases h2 : 0 < s.err + s.dy
  · simp only [stepX, gt_iff_lt, h2, if_true]
    refine ⟨?_, ?_, ?_, ?_⟩ <;> intros <;> omega
  · simp only [stepX, gt_iff_lt, h2, if_false]
    refine ⟨?_, ?_, ?_, ?_⟩ <;> intros <;> omega

theorem headInv_iterate (r : Int) (s : TraceState) (hs : HeadInv r s) :
    ∀ k : Nat, (∀ j, j < k → ((traceStep r)^[j] s).y ≤ ((traceStep r)^[j] s).x) →
      HeadInv r ((traceStep r)^[k] s) := by
  intro k
  induction k with
  | zero => intro _; exact hs
  | succ k ih =>
    intro hg
    have hk := ih (fun j hj => hg j (by omega))
    have hgk := hg k (by omega)
    rw [Function.iterate_succ_apply', traceStep_of_guard _ _ hgk]
    exact headInv_body r _ hk hgk

theorem drawnPoints_append (a b : List Call) :
    drawnPoints (a ++ b) = drawnPoints a ++ drawnPoints b := by
  induction a with
  | nil => rfl
  | cons c cs ih => cases c <;> simp [drawnPoints, ih]

theorem presentCount_append (a b : List Call) :
    presentCount (a ++ b) = presentCount a + presentCount b := by
  induction a with
  | nil => simp [presentCount]
  | cons c cs ih => cases c <;> simp [presentCount, ih, Nat.add_right_comm]

theorem mem_drawnPoints (p : Int × Int) (cs : List Call) :
    p ∈ drawnPoints cs ↔ Call.drawPoint p.1 p.2 ∈ cs := by
  induction cs with
  | nil => simp [drawnPoints]
  | cons c cs ih =>
    cases c <;> simp [drawnPoints, ih]
    rw [Prod.ext_iff]

theorem drawnPoints_passCalls_length (x0 y0 : Int) (s : TraceState) :
    (drawnPoints (passCalls x0 y0 s)).length = 8 := by
  simp [passCalls, octantPoints, drawnPoints]

theorem presentCount_passCalls (x0 y0 : Int) (s : TraceState) :
    presentCount (passCalls x0 y0 s) = 1 := by
  simp [passCalls, octantPoints, presentCount]

theorem drawnPoints_passes_length (x0 y0 : Int) (f : Nat → TraceState) (n : Nat) :
    (drawnPoints ((List.range n).flatMap (fun k => passCalls x0 y0 (f k)))).length = 8 * n := by
  induction n with
  | zero => simp [drawnPoints]
  | succ n ih =>
    rw [List.range_succ, List.flatMap_append, drawnPoints_append, List.length_append, ih]
    simp [drawnPoints_passCalls_length]
    omega

theorem presentCount_passes (x0 y0 : Int) (f : Nat → TraceState) (n : Nat) :
    presentCount ((List.range n).flatMap (fun k => passCalls x0 y0 (f k))) = n := by
  induction n with
  | zero => simp [presentCount]
  | succ n ih =>
    rw [List.range_succ, List.flatMap_append, presentCount_append, ih]
    simp [presentCount_passCalls]

theorem passCalls_point_dist (x0 y0 px py : Int) (s : TraceState)
    (h : Call.drawPoint px py ∈ passCalls x0 y0 s) :
    (px - x0) ^ 2 + (py - y0) ^ 2 = s.x ^ 2 + s.y ^ 2 := by
  simp only [passCalls, octantPoints, List.mem_append, List.mem_cons, Call.drawPoint.injEq,
    List.mem_singleton, List.not_mem_nil, or_false, reduceCtorEq] at h
  rcases h with (⟨rfl, rfl⟩ | ⟨rfl, rfl⟩ | ⟨rfl, rfl⟩ | ⟨rfl, rfl⟩ | ⟨rfl, rfl⟩ | ⟨rfl, rfl⟩ |
    ⟨rfl, rfl⟩ | ⟨rfl, rfl⟩) <;> ring

/-- The squared distance of every emitted point from the centre lies between `(r-1)²`
and `r²`. -/
theorem traceCircle_dist_bounds (x0 y0 r : Int) (hr : 1 ≤ r) (px py : Int)
    (h : Call.drawPoint px py ∈ traceCircle x0 y0 r) :
    (r - 1) ^ 2 ≤ (px - x0) ^ 2 + (py - y0) ^ 2 ∧ (px - x0) ^ 2 + (py - y0) ^ 2 ≤ r ^ 2 := by
  obtain ⟨n, -, htr, hgd, -⟩ := traceLoop_unroll x0 y0 r _ (traceInit r) (le_refl _)
  rw [traceCircle, htr, List.mem_flatMap] at h
  obtain ⟨k, hk, hmem⟩ := h
  rw [List.mem_range] at hk
  have hinv := headInv_iterate r _ (headInv_init r hr) k (fun j hj => hgd j (by omega))
  have hd := passCalls_point_dist x0 y0 px py _ hmem
  obtain ⟨⟨-, -, herr⟩, hx, -, hlo, hhi⟩ := hinv
  have hle := hhi (hgd k hk)
  rw [hd]
  constructor <;> nlinarith

theorem sqrt_bounds_of_sq_bounds (r d : Int) (hr : 1 ≤ r) (h1 : (r - 1) ^ 2 ≤ d)
    (h2 : d ≤ r ^ 2) : ((r : ℝ) - 1 ≤ Real.sqrt (d : ℝ)) ∧ Real.sqrt (d : ℝ) ≤ (r : ℝ) := by
  have hr0 : (0 : ℝ) ≤ (r : ℝ) - 1 := by
    have : ((1 : Int) : ℝ) ≤ (r : ℝ) := by exact_mod_cast hr
    simpa using this
  have hd0 : (0 : ℝ) ≤ (d : ℝ) := by
    have : (0 : Int) ≤ d := le_trans (sq_nonneg _) h1
    exact_mod_cast this
  constructor
  · rw [Real.le_sqrt hr0 hd0]
    exact_mod_cast h1
  · rw [Real.sqrt_le_left (by linarith)]
    exact_mod_cast h2

theorem round_sqrt_of_sq_bounds (r d : Int) (hr : 1 ≤ r) (h1 : (r - 1) ^ 2 ≤ d)
    (h2 : d ≤ r ^ 2) :
    round (Real.sqrt (d : ℝ)) = r - 1 ∨ round (Real.sqrt (d : ℝ)) = r := by
  obtain ⟨hlo, hhi⟩ := sqrt_bounds_of_sq_bounds r d hr h1 h2
  rw [round_eq]
  have hge : r - 1 ≤ ⌊Real.sqrt (d : ℝ) + 1 / 2⌋ := by
    rw [Int.le_floor]
    push_cast
    linarith
  have hlt : ⌊Real.sqrt (d : ℝ) + 1 / 2⌋ < r + 1 := by
    rw [Int.floor_lt]
    push_cast
    linarith
  omega

theorem nearestSqrt_of_sq_bounds (r d : Int) (hr : 1 ≤ r) (h1 : (r - 1) ^ 2 ≤ d)
    (h2 : d ≤ r ^ 2) : nearestSqrt d = r - 1 ∨ nearestSqrt d = r := by
  have hd0 : 0 ≤ d := le_trans (sq_nonneg _) h1
  obtain ⟨R, hR⟩ := Int.eq_ofNat_of_zero_le (by omega : 0 ≤ r - 1)
  obtain ⟨D, rfl⟩ := Int.eq_ofNat_of_zero_le hd0
  have hr' : r = (R : Int) + 1 := by omega
  subst hr'
  have hlo : R ≤ Nat.sqrt D := by
    rw [Nat.le_sqrt']
    have : ((R : Int)) ^ 2 ≤ (D : Int) := by simpa using h1
    exact_mod_cast this
  have hhi : Nat.sqrt D < R + 2 := by
    rw [Nat.sqrt_lt']
    have : (D : Int) < ((R : Int) + 2) ^ 2 := by nlinarith
    exact_mod_cast this
  have hs := Nat.sqrt_le' D
  unfold nearestSqrt
  simp only [Int.toNat_ofNat]
  have hcase : Nat.sqrt D = R ∨ Nat.sqrt D = R + 1 := by omega
  rcases hcase with h | h
  · rw [h]
    split_ifs <;> omega
  · rw [h] at hs ⊢
    have h3 : ((R : Int) + 1) ^ 2 ≤ (D : Int) := by exact_mod_cast hs
    have h4 : (D : Int) = ((R : Int) + 1) ^ 2 := le_antisymm h2 h3
    have h5 : (D : Int) - ((R + 1 : Nat) : Int) * ((R + 1 : Nat) : Int) ≤ ((R + 1 : Nat) : Int) := by
      push_cast
      nlinarith
    rw [if_pos h5]
    right
    push_cast
    ring

/-- The integer computation `nearestSqrt` agrees with rounding the real square root. -/
theorem nearestSqrt_eq_round (d : Int) (hd : 0 ≤ d) :
    nearestSqrt d = round (Real.sqrt (d : ℝ)) := by
  obtain ⟨D, rfl⟩ := Int.eq_ofNat_of_zero_le hd
  have h1 : Nat.sqrt D * Nat.sqrt D ≤ D := Nat.sqrt_le D
  have h2 : D < (Nat.sqrt D + 1) * (Nat.sqrt D + 1) := Nat.lt_succ_sqrt D
  unfold nearestSqrt
  simp only [Int.toNat_ofNat]
  generalize Nat.sqrt D = s at h1 h2 ⊢
  have h1r : (s : ℝ) * s ≤ (D : ℝ) := by exact_mod_cast h1
  have h2r : (D : ℝ) < ((s : ℝ) + 1) * ((s : ℝ) + 1) := by exact_mod_cast h2
  have hs0 : (0 : ℝ) ≤ (s : ℝ) := Nat.cast_nonneg s
  have hD0 : (0 : ℝ) ≤ (D : ℝ) := Nat.cast_nonneg D
  have hlo : (s : ℝ) ≤ Real.sqrt (D : ℝ) := by
    rw [Real.le_sqrt hs0 hD0]
    nlinarith
  have hhi : Real.sqrt (D : ℝ) < (s : ℝ) + 1 := by
    rw [Real.sqrt_lt' (by linarith)]
    nlinarith
  rw [round_eq, eq_comm]
  split_ifs with hc
  · rw [Int.floor_eq_iff]
    have hc' : (D : ℝ) ≤ (s : ℝ) * s + s := by
      have : (D : Int) ≤ (s : Int) * s + s := by push_cast at hc ⊢; omega
      exact_mod_cast this
    have hlt : Real.sqrt (D : ℝ) < (s : ℝ) + 1 / 2 := by
      rw [Real.sqrt_lt' (by linarith)]
      nlinarith
    push_cast
    constructor <;> linarith
  · rw [Int.floor_eq_iff]
    have hc' : (s : ℝ) * s + s + 1 ≤ (D : ℝ) := by
      have : (s : Int) * s + s + 1 ≤ (D : Int) := by push_cast at hc ⊢; omega
      exact_mod_cast this
    have hge : (s : ℝ) + 1 / 2 ≤ Real.sqrt (D : ℝ) := by
      rw [Real.le_sqrt (by linarith) hD0]
      nlinarith
    push_cast
    constructor <;> linarith

theorem wrapInt_of_inRange (n : Int) (h1 : -2147483648 ≤ n) (h2 : n ≤ 2147483647) :
    wrapInt n = n := by
  unfold wrapInt
  omega

theorem traceInit32_eq (r : Int) (hr : 0 < r) (hr2 : r < 1073741824) :
    traceInit32 r = traceInit r := by
  simp only [traceInit32, traceInit, wrapInt, TraceState.mk.injEq, and_true, true_and]
  constructor <;> omega

/-- While no operation overflows, a pass through the loop body in 32-bit arithmetic
updates the state as the pass over unbounded integers does. -/
theorem traceBody32_eq (r : Int) (s : TraceState) (hr2 : r < 1073741824) (h : HeadInv r s)
    (hg : s.y ≤ s.x) : traceBody32 r s = traceBody r s := by
  obtain ⟨⟨hdy, hdx, -⟩, hx, hy, hlo, hhi⟩ := h
  have herr := hhi hg
  have hY : stepY s = { s with y := s.y + 1, err := s.err + s.dy, dy := s.dy + 2 } := by
    simp [stepY, herr]
  have hY32 : stepY32 s = { s with y := s.y + 1, err := s.err + s.dy, dy := s.dy + 2 } := by
    simp only [stepY32, if_pos herr, wrapInt, TraceState.mk.injEq, true_and]
    refine ⟨?_, ?_, ?_⟩ <;> omega
  rw [traceBody32, traceBody, hY, hY32]
  by_cases h2 : 0 < s.err + s.dy
  · simp only [stepX32, stepX, gt_iff_lt, h2, if_true, wrapInt, TraceState.mk.injEq, true_and,
      and_true]
    refine ⟨?_, ?_, ?_⟩ <;> omega
  · simp only [stepX32, stepX, gt_iff_lt, h2, if_false]

/-- While no coordinate overflows, a pass issues the same calls in 32-bit arithmetic as
over unbounded integers. -/
theorem passCalls32_eq (x0 y0 r : Int) (s : TraceState)
    (hx0 : -2147483648 ≤ x0 - r ∧ x0 + r ≤ 2147483647)
    (hy0 : -2147483648 ≤ y0 - r ∧ y0 + r ≤ 2147483647)
    (h : HeadInv r s) (hg : s.y ≤ s.x) : passCalls32 x0 y0 s = passCalls x0 y0 s := by
  obtain ⟨-, hx, hy, -, -⟩ := h
  simp only [passCalls32, passCalls, octantPoints32, octantPoints,
    wrapInt_of_inRange (x0 + s.x) (by omega) (by omega),
    wrapInt_of_inRange (x0 - s.x) (by omega) (by omega),
    wrapInt_of_inRange (x0 + s.y) (by omega) (by omega),
    wrapInt_of_inRange (x0 - s.y) (by omega) (by omega),
    wrapInt_of_inRange (y0 + s.x) (by omega) (by omega),
    wrapInt_of_inRange (y0 - s.x) (by omega) (by omega),
    wrapInt_of_inRange (y0 + s.y) (by omega) (by omega),
    wrapInt_of_inRange (y0 - s.y) (by omega) (by omega)]

/-- While nothing overflows, every call of the first passes in 32-bit arithmetic is a call
of the loop over unbounded integers. -/
theorem tracePasses32_mem (x0 y0 r : Int) (hr2 : r < 1073741824)
    (hx0 : -2147483648 ≤ x0 - r ∧ x0 + r ≤ 2147483647)
    (hy0 : -2147483648 ≤ y0 - r ∧ y0 + r ≤ 2147483647) (c : Call) :
    ∀ (n : Nat) (s : TraceState), HeadInv r s → c ∈ tracePasses32 x0 y0 r n s →
      c ∈ traceLoop x0 y0 r s := by
  intro n
  induction n with
  | zero => intro s _ hc; simp [tracePasses32] at hc
  | succ n ih =>
    intro s hs hc
    by_cases hg : s.y ≤ s.x
    · rw [tracePasses32, if_pos hg, passCalls32_eq x0 y0 r s hx0 hy0 hs hg,
        traceBody32_eq r s hr2 hs hg, List.mem_append] at hc
      rw [traceLoop_of_guard _ _ _ _ hg, List.mem_append]
      rcases hc with hc | hc
      · exact Or.inl hc
      · exact Or.inr (ih _ (headInv_body r s hs hg) hc)
    · rw [tracePasses32, if_neg hg] at hc
      simp at hc

/-- While nothing overflows, the loop in 32-bit arithmetic leaves within `x - y + 1`
passes and issues the calls of the loop over unbounded integers. -/
theorem tracePasses32_eq (x0 y0 r : Int) (hr2 : r < 1073741824)
    (hx0 : -2147483648 ≤ x0 - r ∧ x0 + r ≤ 2147483647)
    (hy0 : -2147483648 ≤ y0 - r ∧ y0 + r ≤ 2147483647) :
    ∀ (n : Nat) (s : TraceState), HeadInv r s → (s.x - s.y + 1).toNat ≤ n →
      tracePasses32 x0 y0 r n s = traceLoop x0 y0 r s := by
  intro n
  induction n with
  | zero =>
    intro s _ hn
    rw [traceLoop_of_exit _ _ _ _ (by omega)]
    rfl
  | succ n ih =>
    intro s hs hn
    by_cases hg : s.y ≤ s.x
    · have hdec := traceBody_decreases r s
      rw [tracePasses32, if_pos hg, passCalls32_eq x0 y0 r s hx0 hy0 hs hg,
        traceBody32_eq r s hr2 hs hg, traceLoop_of_guard _ _ _ _ hg,
        ih _ (headInv_body r s hs hg) (by omega)]
    · rw [tracePasses32, if_neg hg, traceLoop_of_exit _ _ _ _ (by omega)]

/-- For a radius `0 < r < 2 ^ 30` and a centre whose circle fits in the range of `int`, the
32-bit loop leaves within `r` passes and `traceCircle` issues exactly the calls of the
embedding over unbounded integers. -/
theorem traceCircle32_eq_traceCircle (passes : Nat) (x0 y0 r : Int) (hr : 0 < r)
    (hr2 : r < 1073741824) (hx0 : -2147483648 ≤ x0 - r ∧ x0 + r ≤ 2147483647)
    (hy0 : -2147483648 ≤ y0 - r ∧ y0 + r ≤ 2147483647) (hp : r.toNat ≤ passes) :
    traceCircle32 passes x0 y0 r = traceCircle x0 y0 r := by
  rw [traceCircle32, traceCircle, traceInit32_eq r hr hr2]
  apply tracePasses32_eq x0 y0 r hr2 hx0 hy0 passes _ (headInv_init r hr)
  have h0 : (traceInit r).x - (traceInit r).y + 1 = r := by simp [traceInit]
  rw [h0]
  exact hp

theorem round_sqrt_sq (m : Int) (hm : 0 ≤ m) : round (Real.sqrt ((m ^ 2 : Int) : ℝ)) = m := by
  have h : ((m ^ 2 : Int) : ℝ) = (m : ℝ) ^ 2 := by push_cast; ring
  rw [h, Real.sqrt_sq (by exact_mod_cast hm), round_intCast]

/-- C1, as the code has it: for every radius `0 < r < 2 ^ 30` and every centre `(x0, y0)`
with `x0 - r`, `x0 + r`, `y0 - r`, `y0 + r` in the range of a 32-bit `int`, every point `p`
that `traceCircle(x0, y0, r)` passes to `SDL_RenderDrawPoint`, in any number of passes of
its loop, lies within one pixel of the ideal circle: with
`d2 = (p.1 - x0)² + (p.2 - y0)²`, the real number `√d2` rounds to an integer at distance at
most 1 from `r`, and the integer nearest to `√d2`, computed over the integers, is `r - 1`,
`r` or `r + 1`. -/
theorem traceCircle32_points_within_one_pixel (passes : Nat) (x0 y0 r : Int) (hr : 0 < r)
    (hr2 : r < 1073741824) (hx0 : -2147483648 ≤ x0 - r ∧ x0 + r ≤ 2147483647)
    (hy0 : -2147483648 ≤ y0 - r ∧ y0 + r ≤ 2147483647) (p : Int × Int)
    (hp : p ∈ drawnPoints (traceCircle32 passes x0 y0 r)) :
    |round (Real.sqrt (((p.1 - x0) ^ 2 + (p.2 - y0) ^ 2 : Int) : ℝ)) - r| ≤ 1 ∧
      (nearestSqrt ((p.1 - x0) ^ 2 + (p.2 - y0) ^ 2) = r - 1 ∨
        nearestSqrt ((p.1 - x0) ^ 2 + (p.2 - y0) ^ 2) = r ∨
        nearestSqrt ((p.1 - x0) ^ 2 + (p.2 - y0) ^ 2) = r + 1) := by
  rw [mem_drawnPoints, traceCircle32, traceInit32_eq r hr hr2] at hp
  have hp' : Call.drawPoint p.1 p.2 ∈ traceCircle x0 y0 r :=
    tracePasses32_mem x0 y0 r hr2 hx0 hy0 _ passes _ (headInv_init r hr) hp
  obtain ⟨h1, h2⟩ := traceCircle_dist_bounds x0 y0 r hr p.1 p.2 hp'
  constructor
  · rcases round_sqrt_of_sq_bounds r _ hr h1 h2 with h | h <;> rw [h] <;> simp
  · rcases nearestSqrt_of_sq_bounds r _ hr h1 h2 with h | h
    · exact Or.inl h
    · exact Or.inr (Or.inl h)

/-- Witness for C1 as amended: the first point `(12, 20)` emitted by
`traceCircle(10, 20, 3)`. -/
theorem traceCircle32_points_within_one_pixel_witness :
    (0 : Int) < 3 ∧ (3 : Int) < 1073741824 ∧
      ((-2147483648 : Int) ≤ 10 - 3 ∧ (10 : Int) + 3 ≤ 2147483647) ∧
      ((-2147483648 : Int) ≤ 20 - 3 ∧ (20 : Int) + 3 ≤ 2147483647) ∧
      ((12, 20) : Int × Int) ∈ drawnPoints (traceCircle32 3 10 20 3) ∧
      |round (Real.sqrt ((((12 : Int) - 10) ^ 2 + ((20 : Int) - 20) ^ 2 : Int) : ℝ)) - 3| ≤ 1 ∧
      (nearestSqrt (((12 : Int) - 10) ^ 2 + ((20 : Int) - 20) ^ 2) = 3 - 1 ∨
        nearestSqrt (((12 : Int) - 10) ^ 2 + ((20 : Int) - 20) ^ 2) = 3 ∨
        nearestSqrt (((12 : Int) - 10) ^ 2 + ((20 : Int) - 20) ^ 2) = 3 + 1) :=
  ⟨by decide, by decide, by decide, by decide, by decide,
    traceCircle32_points_within_one_pixel 3 10 20 3 (by decide) (by decide) (by decide)
      (by decide) (12, 20) (by decide)⟩

/-- C1 fails as stated: with radius `2147483647` and centre `(0, 0)`, `radius << 1` wraps
to `-2`, the decision variable starts at `3`, and the second pass of the loop emits the
point `(2147483645, 0)`, whose distance from the centre is `r - 2`. -/
theorem traceCircle32_int_max_two_pixels_off :
    ((2147483645, 0) : Int × Int) ∈ drawnPoints (traceCircle32 2 0 0 2147483647) ∧
      ¬ (|round (Real.sqrt ((((2147483645 : Int) - 0) ^ 2 + ((0 : Int) - 0) ^ 2 : Int) : ℝ))
          - 2147483647| ≤ 1) := by
  refine ⟨by decide, ?_⟩
  have h : (((2147483645 : Int) - 0) ^ 2 + ((0 : Int) - 0) ^ 2 : Int)
      = ((2147483645 : Int) ^ 2 : Int) := by norm_num
  rw [h, round_sqrt_sq 2147483645 (by decide)]
  decide

/-- C2: for every centre and every integer radius `r`, the loop of `traceCircle`
terminates.  Every pass through the body increments `y` or decrements `x`, so `x - y`
strictly decreases; the loop makes some number `n ≤ max r 0` of passes, the guard
`x >= y` holding at the start of each of them and failing (`x < y`) after the last; the
calls issued are exactly those of these `n` passes, and at most `8 * r` points are
emitted (`8 * max r 0`, which is `8 * r` for `r ≥ 1`). -/
theorem traceCircle_terminates (x0 y0 r : Int) :
    (∀ s : TraceState,
        ((traceBody r s).y = s.y + 1 ∨ (traceBody r s).x = s.x - 1) ∧
          (traceBody r s).x - (traceBody r s).y < s.x - s.y) ∧
      (∃ n : Nat, (n : Int) ≤ max r 0 ∧
        (∀ k, k < n → (traceStateAt r k).y ≤ (traceStateAt r k).x) ∧
        (traceStateAt r n).x < (traceStateAt r n).y ∧
        traceCircle x0 y0 r
          = (List.range n).flatMap (fun k => passCalls x0 y0 (traceStateAt r k)) ∧
        presentCount (traceCircle x0 y0 r) = n ∧
        (drawnPoints (traceCircle x0 y0 r)).length = 8 * n) ∧
      ((drawnPoints (traceCircle x0 y0 r)).length : Int) ≤ 8 * max r 0 := by
  obtain ⟨n, hn, htr, hgd, hex⟩ := traceLoop_unroll x0 y0 r _ (traceInit r) (le_refl _)
  have hn' : (n : Int) ≤ max r 0 := by
    have h0 : (traceInit r).x - (traceInit r).y + 1 = r := by simp [traceInit]
    rw [h0] at hn
    omega
  have hlen : (drawnPoints (traceCircle x0 y0 r)).length = 8 * n := by
    rw [traceCircle, htr]
    exact drawnPoints_passes_length x0 y0 _ n
  refine ⟨fun s => ⟨traceBody_moves r s, traceBody_decreases r s⟩,
    ⟨n, hn', hgd, hex, htr, ?_, hlen⟩, ?_⟩
  · rw [traceCircle, htr]
    exact presentCount_passes x0 y0 _ n
  · rw [hlen]
    push_cast
    omega

/-- C3, as the code has it: for every centre and every radius `r ≤ 0` other than
`-2147483648`, `traceCircle` issues no call at all, so in particular it emits no point:
after the initialisation `x < y`, the loop body is never entered, whatever the number of
passes allowed. -/
theorem traceCircle32_nonpositive_radius (passes : Nat) (x0 y0 r : Int) (hr : r ≤ 0)
    (hmin : -2147483648 < r) :
    (traceInit32 r).x < (traceInit32 r).y ∧ traceCircle32 passes x0 y0 r = [] ∧
      drawnPoints (traceCircle32 passes x0 y0 r) = [] := by
  have hx : (traceInit32 r).x < (traceInit32 r).y := by
    simp only [traceInit32, wrapInt]
    omega
  have h : traceCircle32 passes x0 y0 r = [] := by
    rw [traceCircle32]
    cases passes with
    | zero => rfl
    | succ n => rw [tracePasses32, if_neg (by omega)]
  rw [h]
  exact ⟨hx, rfl, rfl⟩

/-- Witness for C3 as amended: radius 0 at centre `(400, 400)`. -/
theorem traceCircle32_nonpositive_radius_witness :
    (0 : Int) ≤ 0 ∧ (-2147483648 : Int) < 0 ∧
      (traceInit32 0).x < (traceInit32 0).y ∧ traceCircle32 5 400 400 0 = [] ∧
      drawnPoints (traceCircle32 5 400 400 0) = [] :=
  ⟨by decide, by decide,
    traceCircle32_nonpositive_radius 5 400 400 0 (by decide) (by decide)⟩

/-- C3 fails as stated: with radius `-2147483648`, `radius - 1` wraps to `2147483647`, the
guard `x >= y` holds and the first pass of the loop emits eight points. -/
theorem traceCircle32_int_min_emits :
    (traceInit32 (-2147483648)).x = 2147483647 ∧
      drawnPoints (traceCircle32 1 0 0 (-2147483648))
        = [ (2147483647, 0), (-2147483647, 0), (2147483647, 0), (-2147483647, 0),
            (0, -2147483647), (0, -2147483647), (0, 2147483647), (0, 2147483647) ] := by
  decide

/-- C10: for every integer radius `r`, the loop state of `traceCircle` after any number
`n` of steps of the loop (the state at the start of every iteration, and the state at
loop exit, which further steps leave unchanged) satisfies `dy = 2*y + 1`,
`dx = 2*(r - x) - 1` and `err = x² + y² - r²`. -/
theorem traceCircle_loop_invariant (r : Int) (n : Nat) :
    (traceStateAt r n).dy = 2 * (traceStateAt r n).y + 1 ∧
      (traceStateAt r n).dx = 2 * (r - (traceStateAt r n).x) - 1 ∧
      (traceStateAt r n).err
        = (traceStateAt r n).x ^ 2 + (traceStateAt r n).y ^ 2 - r ^ 2 :=
  traceInv_iterate r n

/-! ## Theorems: angle annotator -/

theorem wrapInt_range (n : Int) : -2147483648 ≤ wrapInt n ∧ wrapInt n ≤ 2147483647 := by
  unfold wrapInt
  omega

theorem toInt_ofInt (n : Int) : (Double.ofInt n).toInt = n := by
  simp [Double.toInt, Double.ofInt]

theorem switchCase_none (n : Int) (h : n ∉ canonicalDegrees) : switchCase n = none := by
  simp only [canonicalDegrees, List.mem_cons, List.mem_singleton, List.not_mem_nil, or_false,
    not_or] at h
  unfold switchCase
  split <;> simp_all

/-- The calls of `drawAngle` when the switch takes a `case`. -/
theorem drawAngle_of_case (env : Env) (xs ys : Int) (input : Double) (radius : Int)
    (t : Texture) (text : String) (pos : Int → Int → Int → Int → Int × Int)
    (h : switchCase input.toInt = some (text, pos)) :
    drawAngle env xs ys input radius t
      = ([ Call.drawLine xs ys (wrapInt (xs + env.cosTimes input radius))
             (wrapInt (ys - env.sinTimes input radius)),
           Call.present, Call.delay 50, Call.renderText text,
           Call.renderCopy (Texture.loadFromRenderedText env text t).2.1.cTexture
             (pos (wrapInt (xs + env.cosTimes input radius))
               (wrapInt (ys - env.sinTimes input radius))
               (Texture.loadFromRenderedText env text t).2.1.cWidth
               (Texture.loadFromRenderedText env text t).2.1.cHeight).1
             (pos (wrapInt (xs + env.cosTimes input radius))
               (wrapInt (ys - env.sinTimes input radius))
               (Texture.loadFromRenderedText env text t).2.1.cWidth
               (Texture.loadFromRenderedText env text t).2.1.cHeight).2
             (Texture.loadFromRenderedText env text t).2.1.cWidth
             (Texture.loadFromRenderedText env text t).2.1.cHeight,
           Call.present, Call.delay 50 ],
         (Texture.loadFromRenderedText env text t).2.1) := by
  simp [drawAngle, h, Texture.render, Texture.loadFromRenderedText]

theorem load_of_rendered (env : Env) (text : String) (t : Texture) (w h : Int)
    (hr : env.renderText text = RenderOutcome.rendered w h) :
    (Texture.loadFromRenderedText env text t).2.1
      = { cTexture := true, cWidth := w, cHeight := h } := by
  simp [Texture.loadFromRenderedText, hr]

theorem load_of_failed (env : Env) (text : String) (t : Texture)
    (hf : (env.renderText text).failed = true) :
    (Texture.loadFromRenderedText env text t).2.1.cTexture = false ∧
      (Texture.loadFromRenderedText env text t).2.2 = false := by
  unfold Texture.loadFromRenderedText Texture.free
  cases hre : env.renderText text with
  | surfaceFailed => cases hc : t.cTexture <;> simp [hc]
  | textureFailed w h => simp
  | rendered w h => simp [hre, RenderOutcome.failed] at hf

theorem switchCase_canonical (d : Int) (hd : d ∈ canonicalDegrees) :
    ∃ text pos, switchCase d = some (text, pos) := by
  simp only [canonicalDegrees, List.mem_cons, List.mem_singleton, List.not_mem_nil,
    or_false] at hd
  rcases hd with rfl | rfl | rfl | rfl | rfl | rfl | rfl | rfl | rfl | rfl | rfl | rfl | rfl |
    rfl | rfl | rfl | rfl <;> exact ⟨_, _, rfl⟩

theorem labelText_of_case (d : Int) (text : String) (pos : Int → Int → Int → Int → Int × Int)
    (h : switchCase d = some (text, pos)) : labelText d = some text := by
  simp [labelText, h]

/-- The one draw-image call of `drawAngle` at a canonical angle whose label renders to a
`w`×`h` image. -/
theorem labelRects_of_case (env : Env) (xs ys radius : Int) (t : Texture) (d w h : Int)
    (hrender : ∀ text, labelText d = some text → env.renderText text = RenderOutcome.rendered w h)
    (text : String) (pos : Int → Int → Int → Int → Int × Int)
    (hc : switchCase d = some (text, pos)) :
    labelRects (drawAngle env xs ys (Double.ofInt d) radius t).1
      = [((pos (wrapInt (xs + env.cosTimes (Double.ofInt d) radius))
            (wrapInt (ys - env.sinTimes (Double.ofInt d) radius)) w h).1,
          (pos (wrapInt (xs + env.cosTimes (Double.ofInt d) radius))
            (wrapInt (ys - env.sinTimes (Double.ofInt d) radius)) w h).2, w, h)] := by
  have hc' : switchCase (Double.ofInt d).toInt = some (text, pos) := by rw [toInt_ofInt, hc]
  rw [drawAngle_of_case env xs ys _ radius t text pos hc',
    load_of_rendered env text t w h (hrender text (labelText_of_case d text pos hc))]
  rfl

/-- C5, as the code has it: for every degree value whose truncation toward zero (the
conversion `int switchBuff = input`) is not one of the 17 canonical values, `drawAngle`
draws the radius line and renders no label: its calls are the line, the present and the
two delays, and `gTextBuffer` is left as it was. -/
theorem drawAngle_line_only (env : Env) (xs ys : Int) (input : Double) (radius : Int)
    (t : Texture) (h : input.toInt ∉ canonicalDegrees) :
    drawAngle env xs ys input radius t
      = ([ Call.drawLine xs ys (wrapInt (xs + env.cosTimes input radius))
             (wrapInt (ys - env.sinTimes input radius)),
           Call.present, Call.delay 50, Call.delay 50 ], t) := by
  simp [drawAngle, switchCase_none _ h]

/-- Witness for C5 as amended: the angle 31 degrees at centre `(400, 400)`, radius 200. -/
theorem drawAngle_line_only_witness :
    (Double.ofInt 31).toInt ∉ canonicalDegrees ∧
      drawAngle envThirtyOne 400 400 (Double.ofInt 31) 200 Texture.init
        = ([ Call.drawLine 400 400 (wrapInt (400 + envThirtyOne.cosTimes (Double.ofInt 31) 200))
               (wrapInt (400 - envThirtyOne.sinTimes (Double.ofInt 31) 200)),
             Call.present, Call.delay 50, Call.delay 50 ], Texture.init) :=
  ⟨by decide,
    drawAngle_line_only envThirtyOne 400 400 (Double.ofInt 31) 200 Texture.init (by decide)⟩

/-- C5 fails as stated: 30.5 is none of the 17 canonical values, yet `drawAngle` called
with 30.5 renders and draws the label of 30 degrees. -/
theorem drawAngle_labels_thirty_and_half :
    (∀ c ∈ canonicalDegrees, ¬ thirtyAndHalf.IsInt c) ∧
      (drawAngle envHalf 400 400 thirtyAndHalf 200 Texture.init).1
        = [ Call.drawLine 400 400 572 299, Call.present, Call.delay 50,
            Call.renderText "1/6pi (sqrt(3)/2, 1/2)", Call.renderCopy true 579 295 154 14,
            Call.present, Call.delay 50 ] := by
  decide

/-- C6, as the code has it: for every canonical angle, if rendering the text of its label
fails, `drawAngle` does not skip the label draw: after the render-text call it still
issues the draw-image call, with a `NULL` texture, presents the frame and returns
normally with `gTextBuffer` empty. -/
theorem drawAngle_render_failure (env : Env) (xs ys radius : Int) (t : Texture) (d : Int)
    (hd : d ∈ canonicalDegrees)
    (hfail : ∀ text, labelText d = some text → (env.renderText text).failed = true) :
    ∃ text lx ly w h,
      labelText d = some text ∧
        (drawAngle env xs ys (Double.ofInt d) radius t).1
          = [ Call.drawLine xs ys (wrapInt (xs + env.cosTimes (Double.ofInt d) radius))
                (wrapInt (ys - env.sinTimes (Double.ofInt d) radius)),
              Call.present, Call.delay 50, Call.renderText text,
              Call.renderCopy false lx ly w h, Call.present, Call.delay 50 ] ∧
        (drawAngle env xs ys (Double.ofInt d) radius t).2.cTexture = false := by
  obtain ⟨text, pos, hc⟩ := switchCase_canonical d hd
  have hc' : switchCase (Double.ofInt d).toInt = some (text, pos) := by rw [toInt_ofInt, hc]
  have htext := labelText_of_case d text pos hc
  obtain ⟨hnull, -⟩ := load_of_failed env text t (hfail text htext)
  rw [drawAngle_of_case env xs ys _ radius t text pos hc', hnull]
  exact ⟨text, _, _, _, _, htext, rfl, rfl⟩

/-- Witness for C6 as amended: angle 0 with a renderer that fails on the label of angle 0
and renders every other text. -/
theorem drawAngle_render_failure_witness :
    (0 : Int) ∈ canonicalDegrees ∧
      (∀ text, labelText 0 = some text → (envZeroFails.renderText text).failed = true) ∧
      ∃ text lx ly w h,
        labelText 0 = some text ∧
          (drawAngle envZeroFails 400 400 (Double.ofInt 0) 200 Texture.init).1
            = [ Call.drawLine 400 400
                  (wrapInt (400 + envZeroFails.cosTimes (Double.ofInt 0) 200))
                  (wrapInt (400 - envZeroFails.sinTimes (Double.ofInt 0) 200)),
                Call.present, Call.delay 50, Call.renderText text,
                Call.renderCopy false lx ly w h, Call.present, Call.delay 50 ] ∧
          (drawAngle envZeroFails 400 400 (Double.ofInt 0) 200 Texture.init).2.cTexture
            = false :=
  have hfail : ∀ text, labelText 0 = some text →
      (envZeroFails.renderText text).failed = true := by
    intro text ht
    have h0 : labelText 0 = some "0pi (1, 0)" := rfl
    rw [h0] at ht
    cases ht
    decide
  ⟨by decide, hfail,
    drawAngle_render_failure envZeroFails 400 400 200 Texture.init 0 (by decide) hfail⟩

/-- C6 fails as stated: at angle 0, when `loadFromRenderedText` fails (returns `false`),
`drawAngle` still issues the draw-image call for the label. -/
theorem drawAngle_draws_after_failed_render :
    (Texture.loadFromRenderedText envNoFont "0pi (1, 0)" Texture.init).2.2 = false ∧
      (drawAngle envNoFont 400 400 (Double.ofInt 0) 200 Texture.init).1
        = [ Call.drawLine 400 400 600 400, Call.present, Call.delay 50,
            Call.renderText "0pi (1, 0)", Call.renderCopy false 605 400 0 0,
            Call.present, Call.delay 50 ] := by
  decide

/-- C8, as the code has it: for each of the 17 canonical angles, every line endpoint
`(endX, endY) = (xs + r_x, ys - r_y)` and every size `w`×`h` of the angle's label with
`w ≥ 0`, such that `endX - w - 7` and `endX + 7` are in the range of a 32-bit `int`,
`drawAngle` issues one draw-image call, for a rectangle `(lx, ly, w, h)` whose left edge
`lx` is on the side of the endpoint given by the sign of the cosine: `lx ≥ endX` for 0, 30,
45, 60, 300, 315, 330, 360; `lx + w ≤ endX` for 120, 135, 150, 180, 210, 225, 240; and
`lx = endX - w/2` (truncating division) for 90 and 270. -/
theorem drawAngle_label_side (env : Env) (xs ys radius : Int) (t : Texture) (d w h : Int)
    (hd : d ∈ canonicalDegrees) (hw : 0 ≤ w)
    (hrender : ∀ text, labelText d = some text → env.renderText text = RenderOutcome.rendered w h)
    (hlo : -2147483648 ≤ wrapInt (xs + env.cosTimes (Double.ofInt d) radius) - w - 7)
    (hhi : wrapInt (xs + env.cosTimes (Double.ofInt d) radius) + 7 ≤ 2147483647) :
    ∃ lx ly,
      labelRects (drawAngle env xs ys (Double.ofInt d) radius t).1 = [(lx, ly, w, h)] ∧
        (d ∈ [0, 30, 45, 60, 300, 315, 330, 360] →
          wrapInt (xs + env.cosTimes (Double.ofInt d) radius) ≤ lx) ∧
        (d ∈ [120, 135, 150, 180, 210, 225, 240] →
          lx + w ≤ wrapInt (xs + env.cosTimes (Double.ofInt d) radius)) ∧
        (d ∈ [90, 270] →
          lx = wrapInt (xs + env.cosTimes (Double.ofInt d) radius) - Int.tdiv w 2) := by
  have hcase := labelRects_of_case env xs ys radius t d w h hrender
  have hdiv : Int.tdiv w 2 = w / 2 := Int.tdiv_eq_ediv hw (by omega)
  generalize wrapInt (xs + env.cosTimes (Double.ofInt d) radius) = ex at hcase hlo hhi ⊢
  generalize wrapInt (ys - env.sinTimes (Double.ofInt d) radius) = ey at hcase
  simp only [canonicalDegrees, List.mem_cons, List.mem_singleton, List.not_mem_nil,
    or_false] at hd
  rcases hd with rfl | rfl | rfl | rfl | rfl | rfl | rfl | rfl | rfl | rfl | rfl | rfl | rfl |
    rfl | rfl | rfl | rfl <;>
  · refine ⟨_, _, hcase _ _ rfl, ?_, ?_, ?_⟩ <;> intro hmem <;>
      simp only [List.mem_cons, List.mem_singleton, List.not_mem_nil, or_false] at hmem <;>
      simp only [wrapInt, hdiv] <;> omega

/-- Witness for C8 as amended: angle 0 at centre `(400, 400)`, radius 200, with a
monospaced font in which the label of angle 0 is 70×14. -/
theorem drawAngle_label_side_witness :
    (0 : Int) ∈ canonicalDegrees ∧ (0 : Int) ≤ 70 ∧
      (∀ text, labelText 0 = some text →
        envMono.renderText text = RenderOutcome.rendered 70 14) ∧
      (-2147483648 : Int) ≤ wrapInt (400 + envMono.cosTimes (Double.ofInt 0) 200) - 70 - 7 ∧
      wrapInt (400 + envMono.cosTimes (Double.ofInt 0) 200) + 7 ≤ 2147483647 ∧
      ∃ lx ly,
        labelRects (drawAngle envMono 400 400 (Double.ofInt 0) 200 Texture.init).1
            = [(lx, ly, 70, 14)] ∧
          ((0 : Int) ∈ [0, 30, 45, 60, 300, 315, 330, 360] →
            wrapInt (400 + envMono.cosTimes (Double.ofInt 0) 200) ≤ lx) ∧
          ((0 : Int) ∈ [120, 135, 150, 180, 210, 225, 240] →
            lx + 70 ≤ wrapInt (400 + envMono.cosTimes (Double.ofInt 0) 200)) ∧
          ((0 : Int) ∈ [90, 270] →
            lx = wrapInt (400 + envMono.cosTimes (Double.ofInt 0) 200) - Int.tdiv 70 2) :=
  have hrender : ∀ text, labelText 0 = some text →
      envMono.renderText text = RenderOutcome.rendered 70 14 := by
    intro text ht
    have h0 : labelText 0 = some "0pi (1, 0)" := rfl
    rw [h0] at ht
    cases ht
    decide
  ⟨by decide, by decide, hrender, by decide, by decide,
    drawAngle_label_side envMono 400 400 200 Texture.init 0 70 14 (by decide) (by decide)
      hrender (by decide) (by decide)⟩

/-- C8 fails as stated: at angle 0 with centre `(2147483447, 400)` and radius 200 the line
ends at `endX = 2147483647`; `endX + 5` wraps, and the 70×14 label is drawn with its left
edge at `-2147483644`, left of the endpoint. -/
theorem drawAngle_label_wraps_left :
    (drawAngle envZero 2147483447 400 (Double.ofInt 0) 200 Texture.init).1
        = [ Call.drawLine 2147483447 400 2147483647 400, Call.present, Call.delay 50,
            Call.renderText "0pi (1, 0)", Call.renderCopy true (-2147483644) 386 70 14,
            Call.present, Call.delay 50 ] ∧
      ¬ ((2147483647 : Int) ≤ -2147483644) := by
  decide

/-- C9, as the code has it: for angle 0 and for angle 360, every endpoint
`(endX, endY) = (xs + r_x, ys - r_y)` and every size `w`×`h` of the angle's label with
`h ≥ 1`, such that `endX + 7`, `endY - h` and `endY + h` are in the range of a 32-bit `int`,
`drawAngle` places the label to the right of the endpoint (`lx > endX`); for 360 its top
edge is `ly = endY + h/2`, which is not above the centred position `endY - h/2`; for 0 its
top edge is `ly = endY - h`, so the label sits wholly above the endpoint, above the
centred position. -/
theorem drawAngle_label_zero_and_full_turn (env : Env) (xs ys radius : Int) (t : Texture)
    (d w h : Int) (hd : d = 0 ∨ d = 360) (hh : 1 ≤ h)
    (hrender : ∀ text, labelText d = some text → env.renderText text = RenderOutcome.rendered w h)
    (hx : wrapInt (xs + env.cosTimes (Double.ofInt d) radius) + 7 ≤ 2147483647)
    (hlo : -2147483648 ≤ wrapInt (ys - env.sinTimes (Double.ofInt d) radius) - h)
    (hhi : wrapInt (ys - env.sinTimes (Double.ofInt d) radius) + h ≤ 2147483647) :
    ∃ lx ly,
      labelRects (drawAngle env xs ys (Double.ofInt d) radius t).1 = [(lx, ly, w, h)] ∧
        wrapInt (xs + env.cosTimes (Double.ofInt d) radius) < lx ∧
        (d = 360 →
          ly = wrapInt (ys - env.sinTimes (Double.ofInt d) radius) + Int.tdiv h 2 ∧
            wrapInt (ys - env.sinTimes (Double.ofInt d) radius) - Int.tdiv h 2 ≤ ly) ∧
        (d = 0 →
          ly = wrapInt (ys - env.sinTimes (Double.ofInt d) radius) - h ∧
            ly < wrapInt (ys - env.sinTimes (Double.ofInt d) radius) - Int.tdiv h 2) := by
  have hcase := labelRects_of_case env xs ys radius t d w h hrender
  have hdiv : Int.tdiv h 2 = h / 2 := Int.tdiv_eq_ediv (by omega) (by omega)
  have hex := wrapInt_range (xs + env.cosTimes (Double.ofInt d) radius)
  have hey := wrapInt_range (ys - env.sinTimes (Double.ofInt d) radius)
  generalize wrapInt (xs + env.cosTimes (Double.ofInt d) radius) = ex at hcase hx hex ⊢
  generalize wrapInt (ys - env.sinTimes (Double.ofInt d) radius) = ey at hcase hlo hhi hey ⊢
  rcases hd with rfl | rfl
  · refine ⟨_, _, hcase _ _ rfl, ?_, ?_, ?_⟩
    · simp only [wrapInt]
      omega
    · intro h0
      omega
    · intro _
      simp only [wrapInt, hdiv]
      omega
  · refine ⟨_, _, hcase _ _ rfl, ?_, ?_, ?_⟩
    · simp only [wrapInt]
      omega
    · intro _
      simp only [wrapInt, hdiv]
      omega
    · intro h0
      omega

/-- Witness for C9 as amended: angle 0 at centre `(400, 400)` with a monospaced font in
which the label of angle 0 is 70×14. -/
theorem drawAngle_label_zero_and_full_turn_witness :
    ((0 : Int) = 0 ∨ (0 : Int) = 360) ∧ (1 : Int) ≤ 14 ∧
      (∀ text, labelText 0 = some text →
        envMono.renderText text = RenderOutcome.rendered 70 14) ∧
      wrapInt (400 + envMono.cosTimes (Double.ofInt 0) 200) + 7 ≤ 2147483647 ∧
      (-2147483648 : Int) ≤ wrapInt (400 - envMono.sinTimes (Double.ofInt 0) 200) - 14 ∧
      wrapInt (400 - envMono.sinTimes (Double.ofInt 0) 200) + 14 ≤ 2147483647 ∧
      ∃ lx ly,
        labelRects (drawAngle envMono 400 400 (Double.ofInt 0) 200 Texture.init).1
            = [(lx, ly, 70, 14)] ∧
          wrapInt (400 + envMono.cosTimes (Double.ofInt 0) 200) < lx ∧
          ((0 : Int) = 360 →
            ly = wrapInt (400 - envMono.sinTimes (Double.ofInt 0) 200) + Int.tdiv 14 2 ∧
              wrapInt (400 - envMono.sinTimes (Double.ofInt 0) 200) - Int.tdiv 14 2 ≤ ly) ∧
          ((0 : Int) = 0 →
            ly = wrapInt (400 - envMono.sinTimes (Double.ofInt 0) 200) - 14 ∧
              ly < wrapInt (400 - envMono.sinTimes (Double.ofInt 0) 200) - Int.tdiv 14 2) :=
  have hrender : ∀ text, labelText 0 = some text →
      envMono.renderText text = RenderOutcome.rendered 70 14 := by
    intro text ht
    have h0 : labelText 0 = some "0pi (1, 0)" := rfl
    rw [h0] at ht
    cases ht
    decide
  ⟨by decide, by decide, hrender, by decide, by decide, by decide,
    drawAngle_label_zero_and_full_turn envMono 400 400 200 Texture.init 0 70 14 (by decide)
      (by decide) hrender (by decide) (by decide) (by decide)⟩

/-- C9 fails as stated: at angle 0, centre `(400, 400)`, radius 200 and a 70×14 label, the
endpoint is `(600, 400)` and the label is drawn with its top edge at `386 = 400 - 14`,
which is above the centred position `400 - 14/2 = 393`. -/
theorem drawAngle_zero_label_above_centred :
    (drawAngle envZero 400 400 (Double.ofInt 0) 200 Texture.init).1
        = [ Call.drawLine 400 400 600 400, Call.present, Call.delay 50,
            Call.renderText "0pi (1, 0)", Call.renderCopy true 605 386 70 14,
            Call.present, Call.delay 50 ] ∧
      ¬ ((386 : Int) ≥ 400 - Int.tdiv 14 2) := by
  decide

/-! ## Theorems: angle sequencer -/

theorem drawnLines_append (a b : List Call) :
    drawnLines (a ++ b) = drawnLines a ++ drawnLines b := by
  induction a with
  | nil => rfl
  | cons c cs ih => cases c <;> simp [drawnLines, ih]

theorem renderedTexts_append (a b : List Call) :
    renderedTexts (a ++ b) = renderedTexts a ++ renderedTexts b := by
  induction a with
  | nil => rfl
  | cons c cs ih => cases c <;> simp [renderedTexts, ih]

theorem labelRects_append (a b : List Call) :
    labelRects (a ++ b) = labelRects a ++ labelRects b := by
  induction a with
  | nil => rfl
  | cons c cs ih => cases c <;> simp [labelRects, ih]

theorem drawnLines_drawAngle (env : Env) (xs ys : Int) (input : Double) (radius : Int)
    (t : Texture) :
    drawnLines (drawAngle env xs ys input radius t).1
      = [(xs, ys, wrapInt (xs + env.cosTimes input radius),
          wrapInt (ys - env.sinTimes input radius))] := by
  cases hc : switchCase input.toInt with
  | none => simp [drawAngle, hc, drawnLines]
  | some p =>
    obtain ⟨text, pos⟩ := p
    rw [drawAngle_of_case env xs ys input radius t text pos hc]
    rfl

theorem renderedTexts_drawAngle (env : Env) (xs ys : Int) (input : Double) (radius : Int)
    (t : Texture) :
    renderedTexts (drawAngle env xs ys input radius t).1 = (labelText input.toInt).toList := by
  cases hc : switchCase input.toInt with
  | none => simp [drawAngle, hc, renderedTexts, labelText]
  | some p =>
    obtain ⟨text, pos⟩ := p
    rw [drawAngle_of_case env xs ys input radius t text pos hc, labelText_of_case _ text pos hc]
    rfl

theorem labelRects_drawAngle_length (env : Env) (xs ys : Int) (input : Double) (radius : Int)
    (t : Texture) :
    (labelRects (drawAngle env xs ys input radius t).1).length
      = (labelText input.toInt).toList.length := by
  cases hc : switchCase input.toInt with
  | none => simp [drawAngle, hc, labelRects, labelText]
  | some p =>
    obtain ⟨text, pos⟩ := p
    rw [drawAngle_of_case env xs ys input radius t text pos hc, labelText_of_case _ text pos hc]
    rfl

theorem drawnLines_runAngleCalls (env : Env) (cs : List AngleCall) (t : Texture) :
    drawnLines (runAngleCalls env cs t).1
      = cs.map (fun c =>
          (c.xs, c.ys, wrapInt (c.xs + env.cosTimes c.input c.radius),
            wrapInt (c.ys - env.sinTimes c.input c.radius))) := by
  induction cs generalizing t with
  | nil => rfl
  | cons c cs ih => simp [runAngleCalls, drawnLines_append, drawnLines_drawAngle, ih]

theorem renderedTexts_runAngleCalls (env : Env) (cs : List AngleCall) (t : Texture) :
    renderedTexts (runAngleCalls env cs t).1
      = cs.flatMap (fun c => (labelText c.input.toInt).toList) := by
  induction cs generalizing t with
  | nil => rfl
  | cons c cs ih => simp [runAngleCalls, renderedTexts_append, renderedTexts_drawAngle, ih]

theorem labelRects_runAngleCalls_length (env : Env) (cs : List AngleCall) (t : Texture) :
    (labelRects (runAngleCalls env cs t).1).length
      = (cs.flatMap (fun c => (labelText c.input.toInt).toList)).length := by
  induction cs generalizing t with
  | nil => rfl
  | cons c cs ih =>
    simp [runAngleCalls, labelRects_append, labelRects_drawAngle_length, ih]

/-- The body of `popularLines` is the run of the seventeen `drawAngle` calls at the
canonical degrees, in order, each on the `gTextBuffer` the one before left. -/
theorem popularLines_eq_run (env : Env) (x0 y0 r : Int) (t : Texture) :
    popularLines env x0 y0 r t
      = runAngleCalls env
          ([0, 30, 45, 60, 90, 120, 135, 150, 180, 210, 225, 240, 270, 300, 315, 330, 360].map
            (fun d : Int => AngleCall.mk x0 y0 (Double.ofInt d) r)) t := by
  simp only [popularLines, runAngleCalls, List.map, List.append_assoc, List.append_nil]

/-- C7: for every centre `(x0, y0)` and radius `r`, `popularLines x0 y0 r` does exactly what
the 17 calls of `drawAngle` with degrees 0, 30, 45, 60, 90, 120, 135, 150, 180, 210, 225,
240, 270, 300, 315, 330, 360, made in that order with the same centre and radius on the
shared `gTextBuffer`, do; the degree list is strictly ascending and holds every canonical
angle once; the calls issued hold the 17 radius lines of these angles in that order, the
17 render-text calls of their labels in that order, and 17 draw-image calls, one label for
each canonical angle. -/
theorem popularLines_calls (env : Env) (x0 y0 r : Int) (t : Texture) :
    popularLines env x0 y0 r t
        = runAngleCalls env
            ([0, 30, 45, 60, 90, 120, 135, 150, 180, 210, 225, 240, 270, 300, 315, 330, 360].map
              (fun d : Int => AngleCall.mk x0 y0 (Double.ofInt d) r)) t ∧
      List.Pairwise (fun a b : Int => a < b)
        [0, 30, 45, 60, 90, 120, 135, 150, 180, 210, 225, 240, 270, 300, 315, 330, 360] ∧
      (∀ d ∈ canonicalDegrees,
        List.count d
          [0, 30, 45, 60, 90, 120, 135, 150, 180, 210, 225, 240, 270, 300, 315, 330, 360] = 1) ∧
      drawnLines (popularLines env x0 y0 r t).1
        = [0, 30, 45, 60, 90, 120, 135, 150, 180, 210, 225, 240, 270, 300, 315, 330, 360].map
            (fun d : Int =>
              (x0, y0, wrapInt (x0 + env.cosTimes (Double.ofInt d) r),
                wrapInt (y0 - env.sinTimes (Double.ofInt d) r))) ∧
      renderedTexts (popularLines env x0 y0 r t).1
        = [ "0pi (1, 0)", "1/6pi (sqrt(3)/2, 1/2)", "1/4pi (sqrt(2)/2, sqrt(2)/2)",
            "1/3pi (1/2, sqrt(3)/2)", "1/2pi (0, 1)", "2/3pi (-1/2, sqrt(3)/2)",
            "3/4pi (-sqrt(2)/2, sqrt(2)/2)", "5/6pi (-sqrt(3)/2, 1/2)", "1pi (-1, 0)",
            "7/6pi (-sqrt(3)/2, -1/2)", "5/4pi (-sqrt(2)/2, -sqrt(2)/2)",
            "4/3pi (-1/2, -sqrt(3)/2)", "3/2pi (0, -1)", "5/3pi (1/2, -sqrt(3)/2)",
            "7/4pi (sqrt(2)/2, -sqrt(2)/2)", "11/6pi (sqrt(3)/2, -1/2)", "2pi (1, 0)" ] ∧
      (labelRects (popularLines env x0 y0 r t).1).length = 17 := by
  have hrun := popularLines_eq_run env x0 y0 r t
  refine ⟨hrun, by decide, by decide, ?_, ?_, ?_⟩
  · rw [hrun, drawnLines_runAngleCalls, List.map_map]
    rfl
  · rw [hrun, renderedTexts_runAngleCalls]
    rfl
  · rw [hrun, labelRects_runAngleCalls_length]
    rfl

/-! ## Theorems: driver loop -/

/-- C4 fails on the code: in a run of two passes of the main loop from
`(drawn, lined) = (0, 0)`, the second pass starts with `lined = 1` and invokes
`popularLines` again; `traceCircle` is invoked in the first pass only. -/
theorem mainLoop_second_pass_reruns_popularLines :
    (mainPass RunState.init).2 = { drawn := 1, lined := 1 } ∧
      (mainLoop 2 RunState.init).1
        = [ [ DriverCall.clear, DriverCall.traceCircle 400 400 200,
              DriverCall.popularLines 400 400 200, DriverCall.present ],
            [ DriverCall.popularLines 400 400 200, DriverCall.present ] ] := by
  decide

theorem mainPass_after_first (s : RunState) (h : s.drawn = 1) :
    mainPass s = ([DriverCall.popularLines OriginX OriginY rad, DriverCall.present],
      { drawn := 1, lined := 1 }) := by
  cases s with
  | mk drawn lined =>
    simp only at h
    subst h
    simp [mainPass]

/-- In a run of `n + 1` passes, `traceCircle` is invoked once and `popularLines` in every
pass, `n + 1` times. -/
theorem mainLoop_invocation_counts (n : Nat) :
    ((mainLoop (n + 1) RunState.init).1.flatten.filter DriverCall.isTraceCircle).length = 1 ∧
      ((mainLoop (n + 1) RunState.init).1.flatten.filter DriverCall.isPopularLines).length
        = n + 1 := by
  have hrest : ∀ (k : Nat) (s : RunState), s.drawn = 1 →
      ((mainLoop k s).1.flatten.filter DriverCall.isTraceCircle).length = 0 ∧
        ((mainLoop k s).1.flatten.filter DriverCall.isPopularLines).length = k := by
    intro k
    induction k with
    | zero => intro s _; simp [mainLoop]
    | succ k ih =>
      intro s hs
      obtain ⟨h1, h2⟩ := ih { drawn := 1, lined := 1 } rfl
      simp only [mainLoop, mainPass_after_first s hs, List.flatten_cons, List.filter_append,
        List.length_append, h1, h2]
      simp [DriverCall.isTraceCircle, DriverCall.isPopularLines, List.filter]
      omega
  obtain ⟨h1, h2⟩ := hrest n { drawn := 1, lined := 1 } rfl
  have hfirst : mainPass RunState.init
      = ([ DriverCall.clear, DriverCall.traceCircle OriginX OriginY rad,
           DriverCall.popularLines OriginX OriginY rad, DriverCall.present ],
         { drawn := 1, lined := 1 }) := by
    decide
  simp only [mainLoop, hfirst, List.flatten_cons, List.filter_append, List.length_append, h1, h2]
  simp [DriverCall.isTraceCircle, DriverCall.isPopularLines, List.filter]
  omega

end UnitCircle
